import Mathlib

/-!
A shallow embedding of the AlephBFT consensus core and proofs about it.

The definitions mirror the Rust sources of the repository:
`consensus/src/creation/creator.rs` (the `Creator` that decides when a unit at
a given round may be produced), `consensus/src/alerts/handler.rs` (the alert
`Handler` policing fork accusations over reliable multicast) and
`consensus/src/runway/mod.rs` (the `Runway` parents-response and
unit-creation paths).  Collaborator interfaces that live outside those files
(`NodeMap`, `ControlHash`, `Validator`, `UnitStore`, the alert data types and
the RMC payload) are modelled from the specification; each such definition
carries a doc comment saying so.  Cryptographic signature checking is
abstracted into a boolean verdict carried by the signed object, which is the
only way the sources observe it.
-/

namespace AlephBFT

/-- Association-list map with first-match lookup; insertion is cons, so a later
binding shadows an earlier one, matching the observable behaviour of the
`HashMap`s used by the sources. -/
def assocLookup {K V : Type} [DecidableEq K] : List (K × V) → K → Option V
  | [], _ => none
  | (k, v) :: rest, key => if key = k then some v else assocLookup rest key

theorem assocLookup_append_isSome {K V : Type} [DecidableEq K]
    (l m : List (K × V)) (key : K) (hm : (assocLookup m key).isSome) :
    (assocLookup (l ++ m) key).isSome := by
  induction l with
  | nil => exact hm
  | cons p l ih =>
    obtain ⟨k, v⟩ := p
    by_cases hk : key = k <;> simp [assocLookup, hk, ih]

/-- Modelled from the spec: `NodeMap<V>` is a sparse mapping keyed by a
NodeIndex in `[0, N)` with slot-occupancy queries and ordered value
iteration; it is represented as a fixed-length list of optional values. -/
structure NodeMap (V : Type) where
  slots : List (Option V)
deriving DecidableEq, Repr

/-- `NodeMap::with_size`: a map of the given size with every slot empty. -/
def NodeMap.withSize (V : Type) (n : Nat) : NodeMap V := ⟨List.replicate n none⟩

def NodeMap.size {V : Type} (m : NodeMap V) : Nat := m.slots.length

def NodeMap.get {V : Type} (m : NodeMap V) (i : Nat) : Option V :=
  (m.slots.get? i).join

def NodeMap.insert {V : Type} (m : NodeMap V) (i : Nat) (v : V) : NodeMap V :=
  ⟨m.slots.set i (some v)⟩

/-- `NodeMap::into_values`: the present values in ascending NodeIndex order. -/
def NodeMap.values {V : Type} (m : NodeMap V) : List V := m.slots.filterMap id

/-- The NodeIndexes of the occupied slots, in ascending order. -/
def NodeMap.supportIdx {V : Type} (m : NodeMap V) : List Nat :=
  m.slots.enum.filterMap (fun p => if p.2.isSome then some p.1 else none)

theorem NodeMap.withSize_values (V : Type) (n : Nat) :
    (NodeMap.withSize V n).values = [] := by
  induction n with
  | zero => rfl
  | succ n ih =>
    simp only [NodeMap.withSize, NodeMap.values, List.replicate_succ] at *
    simp [ih]

theorem NodeMap.withSize_supportIdx (V : Type) (n : Nat) :
    (NodeMap.withSize V n).supportIdx = [] := by
  simp only [NodeMap.withSize, NodeMap.supportIdx, List.enum]
  suffices h : ∀ k, (List.enumFrom k (List.replicate n (none : Option V))).filterMap
      (fun p => if p.2.isSome then some p.1 else none) = [] from h 0
  induction n with
  | zero => intro k; rfl
  | succ n ih =>
    intro k
    simp [List.replicate_succ, List.enumFrom_cons, ih]

/-- Modelled from the spec: a `ControlHash` is a digest over the parent
`NodeMap` plus the set of present parent slots, and two ControlHashes are
equal iff both the presence bitmap and the hash sequence match.  The digest
being injective over that content, it is represented by the parent `NodeMap`
itself: `new` records the map, `parentsIdx` lists the occupied slots, and
`combined`/`combine_hashes` are the identity representation of the digest. -/
structure ControlHash where
  parentMap : NodeMap Nat
deriving DecidableEq, Repr

def ControlHash.new (m : NodeMap Nat) : ControlHash := ⟨m⟩

/-- `ControlHash::parents`: the declared parent slots in ascending order. -/
def ControlHash.parentsIdx (c : ControlHash) : List Nat := c.parentMap.supportIdx

/-- The `combined_hash` field of a `ControlHash`. -/
def ControlHash.combined (c : ControlHash) : NodeMap Nat := c.parentMap

/-- `ControlHash::combine_hashes` on a parent `NodeMap`. -/
def ControlHash.combine_hashes (m : NodeMap Nat) : NodeMap Nat := m

/-- `PreUnit` from `creation/creator.rs` and the units module: creator, round
and the control hash over the chosen parents. -/
structure PreUnit where
  creator : Nat
  round : Nat
  control_hash : ControlHash
deriving DecidableEq, Repr

/-- The errors of `creation/creator.rs`. -/
inductive ConstraintError
  | NotEnoughParents
  | MissingOwnParent
deriving DecidableEq, Repr

/-- A unit as seen by the creator: its creator, round and hash. -/
structure DagUnit where
  creator : Nat
  round : Nat
  uhash : Nat
deriving DecidableEq, Repr

/-- `UnitsCollector` from `creation/creator.rs`: the candidate parents seen so
far for one round, plus the count of occupied slots. -/
structure UnitsCollector where
  candidates : NodeMap Nat
  n_candidates : Nat
deriving DecidableEq, Repr

def UnitsCollector.new (n_members : Nat) : UnitsCollector :=
  ⟨NodeMap.withSize Nat n_members, 0⟩

/-- `UnitsCollector::add_unit`: record the unit's hash under its creator's
slot only if that slot is empty. -/
def UnitsCollector.add_unit (c : UnitsCollector) (u : DagUnit) : UnitsCollector :=
  if (c.candidates.get u.creator).isNone then
    ⟨c.candidates.insert u.creator u.uhash, c.n_candidates + 1⟩
  else c

/-- `UnitsCollector::prospective_parents`: fail with `NotEnoughParents` below
the quorum threshold `(size * 2) / 3 + 1`, then with `MissingOwnParent` if the
caller's own slot is empty, else return the candidate map. -/
def UnitsCollector.prospective_parents (c : UnitsCollector) (node_id : Nat) :
    Except ConstraintError (NodeMap Nat) :=
  if c.n_candidates < c.candidates.size * 2 / 3 + 1 then
    .error .NotEnoughParents
  else if (c.candidates.get node_id).isNone then
    .error .MissingOwnParent
  else .ok c.candidates

/-- The free function `create_unit` of `creation/creator.rs`: derive the
control hash from the parent map and list the parent hashes in NodeIndex
order. -/
def createUnitPure (node_id : Nat) (parents : NodeMap Nat) (round : Nat) :
    PreUnit × List Nat :=
  (⟨node_id, round, ControlHash.new parents⟩, parents.values)

/-- `Creator` from `creation/creator.rs`. -/
structure Creator where
  round_collectors : List UnitsCollector
  node_id : Nat
  n_members : Nat
deriving DecidableEq, Repr

def Creator.new (node_id n_members : Nat) : Creator :=
  ⟨[UnitsCollector.new n_members], node_id, n_members⟩

def Creator.current_round (c : Creator) : Nat := c.round_collectors.length - 1

/-- `Creator::create_unit`: round 0 always succeeds with an empty parent map;
otherwise consult the collector of the previous round, a missing collector
counting as `NotEnoughParents`. -/
def Creator.create_unit (c : Creator) (round : Nat) :
    Except ConstraintError (PreUnit × List Nat) :=
  if round = 0 then
    .ok (createUnitPure c.node_id (NodeMap.withSize Nat c.n_members) round)
  else
    match c.round_collectors.get? (round - 1) with
    | none => .error .NotEnoughParents
    | some col =>
      match col.prospective_parents c.node_id with
      | .error e => .error e
      | .ok parents => .ok (createUnitPure c.node_id parents round)

/-- `Creator::get_or_initialize_collector_for_round` followed by the update of
the collector, i.e. `Creator::add_unit`: extend the collector vector up to the
unit's round if needed, then record the unit in that round's collector. -/
def Creator.add_unit (c : Creator) (u : DagUnit) : Creator :=
  let pad := List.replicate (u.round + 1 - c.round_collectors.length)
    (UnitsCollector.new c.n_members)
  let extended : Creator :=
    if u.round > c.current_round then
      { c with round_collectors := c.round_collectors ++ pad }
    else c
  match extended.round_collectors.get? u.round with
  | some col =>
    { extended with round_collectors :=
        extended.round_collectors.set u.round (col.add_unit u) }
  | none => extended

/-- C1: `create_unit(0)` always succeeds and returns a PreUnit of round 0 by
this creator whose parent map is empty; for `r > 0`, when the round `r-1`
collector exists and its candidate map has the full `N` slots, the call
returns a PreUnit exactly when the collector holds at least
`T = 2N/3 + 1` candidates and the creator's own slot is occupied, failing
with `NotEnoughParents` when the candidate count is below `T` and with
`MissingOwnParent` when the count reaches `T` but the own slot is empty. -/
theorem Creator.create_unit_spec (c : Creator) :
    (∃ pu, c.create_unit 0 = .ok (pu, []) ∧
      pu.round = 0 ∧ pu.creator = c.node_id ∧ pu.control_hash.parentsIdx = []) ∧
    ∀ r, 0 < r → ∀ col, c.round_collectors.get? (r - 1) = some col →
      col.candidates.size = c.n_members →
      (((∃ pu hs, c.create_unit r = .ok (pu, hs)) ↔
          c.n_members * 2 / 3 + 1 ≤ col.n_candidates ∧
            (col.candidates.get c.node_id).isSome) ∧
        (col.n_candidates < c.n_members * 2 / 3 + 1 →
          c.create_unit r = .error .NotEnoughParents) ∧
        (c.n_members * 2 / 3 + 1 ≤ col.n_candidates →
          (col.candidates.get c.node_id).isNone →
          c.create_unit r = .error .MissingOwnParent)) := by
  constructor
  · refine ⟨⟨c.node_id, 0, ControlHash.new (NodeMap.withSize Nat c.n_members)⟩, ?_, rfl, rfl, ?_⟩
    · simp [Creator.create_unit, createUnitPure, NodeMap.withSize_values]
    · simp [ControlHash.new, ControlHash.parentsIdx, NodeMap.withSize_supportIdx]
  · intro r hr col hcol hsize
    have hr0 : ¬(r = 0) := by omega
    have hcolg : c.round_collectors[r - 1]? = some col := by
      rw [← List.get?_eq_getElem?]
      exact hcol
    by_cases hfew : col.n_candidates < c.n_members * 2 / 3 + 1
    · have hcu : c.create_unit r = Except.error ConstraintError.NotEnoughParents := by
        simp [Creator.create_unit, hr0, hcolg, UnitsCollector.prospective_parents,
          hsize, hfew]
      rw [hcu]
      refine ⟨⟨?_, ?_⟩, fun _ => rfl, fun habs _ => absurd habs (by omega)⟩
      · rintro ⟨pu, hs, hbad⟩
        exact absurd hbad (by simp)
      · rintro ⟨habs, -⟩
        exact absurd habs (by omega)
    · by_cases hown : (col.candidates.get c.node_id).isNone
      · have hown2 : col.candidates.get c.node_id = none :=
          Option.isNone_iff_eq_none.mp hown
        have hcu : c.create_unit r = Except.error ConstraintError.MissingOwnParent := by
          simp [Creator.create_unit, hr0, hcolg, UnitsCollector.prospective_parents,
            hsize, hfew, hown2]
        rw [hcu]
        refine ⟨⟨?_, ?_⟩, fun habs => absurd habs hfew, fun _ _ => rfl⟩
        · rintro ⟨pu, hs, hbad⟩
          exact absurd hbad (by simp)
        · rintro ⟨-, hsome⟩
          rw [Option.isNone_iff_eq_none] at hown
          simp [hown] at hsome
      · have hown3 : ¬(col.candidates.get c.node_id = none) := by
          rw [← Option.isNone_iff_eq_none]
          exact hown
        have hcu : c.create_unit r = Except.ok (createUnitPure c.node_id col.candidates r) := by
          simp [Creator.create_unit, hr0, hcolg, UnitsCollector.prospective_parents,
            hsize, hfew, hown3]
        rw [hcu]
        refine ⟨⟨?_, ?_⟩, fun habs => absurd habs hfew, fun _ habs => absurd habs hown⟩
        · intro _
          refine ⟨by omega, ?_⟩
          rw [Option.isNone_iff_eq_none] at hown
          exact Option.isSome_iff_ne_none.mpr hown
        · intro _
          exact ⟨_, _, rfl⟩

/-- A collector holding three candidates (slots 0, 1, 2) out of four. -/
def colA : UnitsCollector := ⟨⟨[some 10, some 11, some 12, none]⟩, 3⟩

/-- A creator for node 0 among four members with `colA` as its only (round 0)
collector. -/
def creatorA : Creator := ⟨[colA], 0, 4⟩

theorem Creator.create_unit_spec_witness :
    ∃ pu hs, creatorA.create_unit 1 = .ok (pu, hs) :=
  ((Creator.create_unit_spec creatorA).2 1 (by decide) colA rfl rfl).1.mpr
    ⟨by decide, by decide⟩

/-- C10: for any creator state and round `r ≥ 1` such that no collector exists
for round `r - 1` (that is, `r - 1` exceeds `current_round()`), `create_unit`
returns the `NotEnoughParents` error.  The embedded `create_unit` is a total
function of an unmodified creator, matching the source's `&self` receiver:
no collector is added and no out-of-bounds access can occur. -/
theorem Creator.create_unit_no_collector (c : Creator) (r : Nat)
    (hbeyond : c.current_round < r - 1) :
    c.create_unit r = .error .NotEnoughParents := by
  have hr0 : ¬(r = 0) := by omega
  have hlen : c.round_collectors.length ≤ r - 1 := by
    have := c.current_round
    unfold Creator.current_round at hbeyond
    omega
  simp only [Creator.create_unit, hr0, if_false]
  rw [List.get?_eq_none.mpr hlen]

theorem Creator.create_unit_no_collector_witness :
    creatorA.create_unit 3 = .error .NotEnoughParents :=
  Creator.create_unit_no_collector creatorA 3 (by decide)

/-- Modelled from the spec: a `FullUnit` is a PreUnit plus an opaque data
payload and a session id; `uhash` stands for the digest the hasher assigns to
the unit. -/
structure FullUnit where
  creator : Nat
  round : Nat
  session : Nat
  control_hash : ControlHash
  data : Nat
  uhash : Nat
deriving DecidableEq, Repr

/-- Modelled from the spec: an `UncheckedSignedUnit` is a FullUnit with a
signature not yet verified; `sigOk` is the verdict of checking that signature
against the keychain, which is the only way the sources observe it. -/
structure UncheckedSignedUnit where
  fu : FullUnit
  sigOk : Bool
deriving DecidableEq, Repr

/-- Modelled from the spec: a `ForkProof` is an ordered pair of two unchecked
signed units by the same creator. -/
abbrev ForkProof : Type := UncheckedSignedUnit × UncheckedSignedUnit

/-- Modelled from the spec: an `Alert` names its accuser `sender`, carries a
fork proof and the accuser's commitment `legit_units`; `ahash` stands for the
content digest under which the alert is indexed. -/
structure Alert where
  sender : Nat
  proof : ForkProof
  legit_units : List UncheckedSignedUnit
  ahash : Nat
deriving DecidableEq, Repr

/-- `Alert::forker`: the creator of the first unit of the fork proof, as
`Handler::alert_confirmed` computes it explicitly. -/
def Alert.forker (a : Alert) : Nat := a.proof.1.fu.creator

/-- Modelled from the spec: a signed alert whose signature has not been
checked yet; `sigOk` is the verdict of that check. -/
structure UncheckedAlert where
  alert : Alert
  sigOk : Bool
deriving DecidableEq, Repr

/-- Modelled from the spec: an RMC payload carries the alert hash it certifies
and is complete when it already holds a full multisignature. -/
structure RmcHashMessage where
  hash : Nat
  complete : Bool
deriving DecidableEq, Repr

inductive Recipient
  | Everyone
  | Node (node : Nat)
deriving DecidableEq, Repr

/-- The error type of `alerts/handler.rs`. -/
inductive AlertError
  | IncorrectlySignedUnit (sender : Nat)
  | SameRound (round : Nat) (sender : Nat)
  | WrongCreator (sender : Nat)
  | DifferentRounds (sender : Nat)
  | SingleUnit (sender : Nat)
  | WrongSession (sender : Nat)
  | IncorrectlySignedAlert
  | RepeatedAlert (sender : Nat) (forker : Nat)
  | UnknownAlertRequest
  | UnknownAlertRMC
deriving DecidableEq, Repr

inductive ForkingNotification
  | Forker (proof : ForkProof)
  | Units (units : List UncheckedSignedUnit)
deriving DecidableEq, Repr

inductive AlertMessage
  | ForkAlert (ua : UncheckedAlert)
  | RmcMessage (sender : Nat) (m : RmcHashMessage)
  | AlertRequest (node : Nat) (hash : Nat)
deriving DecidableEq, Repr

inductive AlerterResponse
  | ForkAlert (ua : UncheckedAlert) (r : Recipient)
  | ForkResponse (n : Option ForkingNotification) (hash : Nat)
  | RmcMessage (m : RmcHashMessage)
  | AlertRequest (hash : Nat) (r : Recipient)
deriving DecidableEq, Repr

/-- The alert `Handler` of `alerts/handler.rs`.  The keychain is abstracted
away: signature verdicts travel with the signed objects. -/
structure Handler where
  session_id : Nat
  known_forkers : List (Nat × ForkProof)
  known_alerts : List (Nat × Alert)
  known_rmcs : List ((Nat × Nat) × Nat)
  exiting : Bool
deriving DecidableEq, Repr

/-- `Handler::is_forker`. -/
def Handler.is_forker (h : Handler) (forker : Nat) : Bool :=
  (assocLookup h.known_forkers forker).isSome

/-- `Handler::verify_commitment`'s loop body over `legit_units`, with the set
of rounds seen so far: each unit must be signature-valid, created by the
forker, and of a round not seen before in the commitment. -/
def verifyCommitmentLoop (forker sender : Nat) :
    List Nat → List UncheckedSignedUnit → Except AlertError Unit
  | _, [] => .ok ()
  | rounds, u :: rest =>
    if u.sigOk then
      if u.fu.creator ≠ forker then .error (.WrongCreator sender)
      else if u.fu.round ∈ rounds then .error (.SameRound u.fu.round sender)
      else verifyCommitmentLoop forker sender (u.fu.round :: rounds) rest
    else .error (.IncorrectlySignedUnit sender)

/-- `Handler::verify_commitment`. -/
def verify_commitment (a : Alert) : Except AlertError Unit :=
  verifyCommitmentLoop a.forker a.sender [] a.legit_units

/-- `Handler::verify_fork`: both proof units correctly signed, both in the
current session, distinct as values, same creator, same round; returns that
creator. -/
def Handler.verify_fork (h : Handler) (a : Alert) : Except AlertError Nat :=
  if a.proof.1.sigOk ∧ a.proof.2.sigOk then
    if a.proof.1.fu.session ≠ h.session_id ∨ a.proof.2.fu.session ≠ h.session_id then
      .error (.WrongSession a.sender)
    else if a.proof.1.fu = a.proof.2.fu then .error (.SingleUnit a.sender)
    else if a.proof.1.fu.creator ≠ a.proof.2.fu.creator then
      .error (.WrongCreator a.sender)
    else if a.proof.1.fu.round ≠ a.proof.2.fu.round then
      .error (.DifferentRounds a.sender)
    else .ok a.proof.1.fu.creator
  else .error (.IncorrectlySignedUnit a.sender)

/-- `Handler::on_new_forker_detected`: record the forker's proof. -/
def Handler.on_new_forker_detected (h : Handler) (forker : Nat) (proof : ForkProof) :
    Handler :=
  { h with known_forkers := (forker, proof) :: h.known_forkers }

/-- `Handler::rmc_alert`: register the RMC for (accuser, forker) at the
alert's hash, and index the alert by that hash. -/
def Handler.rmc_alert (h : Handler) (forker : Nat) (a : Alert) : Handler × Nat :=
  ({ h with
      known_rmcs := ((a.sender, forker), a.ahash) :: h.known_rmcs,
      known_alerts := (a.ahash, a) :: h.known_alerts }, a.ahash)

/-- `Handler::on_own_alert`: mark the forker, sign the alert, register the
RMC, and return the broadcast message with the alert hash. -/
def Handler.on_own_alert (h : Handler) (a : Alert) :
    Handler × (AlertMessage × Recipient × Nat) :=
  (((h.on_new_forker_detected a.forker a.proof).rmc_alert a.forker a).1,
    (.ForkAlert ⟨a, true⟩, .Everyone,
      ((h.on_new_forker_detected a.forker a.proof).rmc_alert a.forker a).2))

/-- `Handler::on_network_alert`.  The source mutates `self` even on the
`RepeatedAlert` error path, so the embedding returns the updated handler next
to the `Except` result. -/
def Handler.on_network_alert (h : Handler) (ua : UncheckedAlert) :
    Handler × Except AlertError (Option ForkingNotification × Nat) :=
  if ua.sigOk then
    match h.verify_fork ua.alert with
    | .error e => (h, .error e)
    | .ok forker =>
      if (assocLookup h.known_rmcs (ua.alert.sender, forker)).isSome then
        ({ h with known_alerts := (ua.alert.ahash, ua.alert) :: h.known_alerts },
          .error (.RepeatedAlert ua.alert.sender forker))
      else if h.is_forker forker then
        ((h.rmc_alert forker ua.alert).1,
          .ok (none, (h.rmc_alert forker ua.alert).2))
      else
        (((h.on_new_forker_detected forker ua.alert.proof).rmc_alert forker ua.alert).1,
          .ok (some (.Forker ua.alert.proof),
            ((h.on_new_forker_detected forker ua.alert.proof).rmc_alert forker ua.alert).2))
  else (h, .error .IncorrectlySignedAlert)

/-- `Handler::on_message`. -/
def Handler.on_message (h : Handler) (m : AlertMessage) :
    Handler × Except AlertError (Option AlerterResponse) :=
  match m with
  | .ForkAlert ua =>
    ((h.on_network_alert ua).1,
      (h.on_network_alert ua).2.map fun p => some (.ForkResponse p.1 p.2))
  | .RmcMessage sender msg =>
    match assocLookup h.known_alerts msg.hash with
    | some alert =>
      if assocLookup h.known_rmcs (alert.sender, alert.forker) = some msg.hash
          ∨ msg.complete then
        (h, .ok (some (.RmcMessage msg)))
      else (h, .ok none)
    | none => (h, .ok (some (.AlertRequest msg.hash (.Node sender))))
  | .AlertRequest node hash =>
    match assocLookup h.known_alerts hash with
    | some alert => (h, .ok (some (.ForkAlert ⟨alert, true⟩ (.Node node))))
    | none => (h, .error .UnknownAlertRequest)

/-- `Handler::alert_confirmed`: fetch the alert by the multisigned hash,
re-pin `known_rmcs` for its (accuser, forker) pair, then verify the
commitment and emit the committed units.  The source registers the RMC hash
before checking the commitment; as that registration does not feed into the
check, the embedding folds it into both outcomes. -/
def Handler.alert_confirmed (h : Handler) (ms : Nat) :
    Handler × Except AlertError ForkingNotification :=
  match assocLookup h.known_alerts ms with
  | none => (h, .error .UnknownAlertRMC)
  | some alert =>
    match verify_commitment alert with
    | .error e =>
      ({ h with known_rmcs :=
          ((alert.sender, alert.proof.1.fu.creator), alert.ahash) :: h.known_rmcs },
        .error e)
    | .ok _ =>
      ({ h with known_rmcs :=
          ((alert.sender, alert.proof.1.fu.creator), alert.ahash) :: h.known_rmcs },
        .ok (.Units alert.legit_units))

/-- On the ok path `verify_fork` returns the creator of the first proof
unit. -/
theorem Handler.verify_fork_ok_creator {h : Handler} {a : Alert} {f : Nat}
    (hv : h.verify_fork a = .ok f) : f = a.proof.1.fu.creator := by
  unfold Handler.verify_fork at hv
  repeat' split at hv
  all_goals simp_all

/-- The commitment check only ever fails with `IncorrectlySignedUnit`,
`WrongCreator` or `SameRound`, always naming the accuser. -/
theorem verifyCommitmentLoop_error_classes (forker sender : Nat) :
    ∀ (us : List UncheckedSignedUnit) (rounds : List Nat) (e : AlertError),
      verifyCommitmentLoop forker sender rounds us = .error e →
      e = .IncorrectlySignedUnit sender ∨ e = .WrongCreator sender ∨
        ∃ r, e = .SameRound r sender := by
  intro us
  induction us with
  | nil =>
    intro rounds e he
    exact absurd he (by simp [verifyCommitmentLoop])
  | cons u rest ih =>
    intro rounds e he
    unfold verifyCommitmentLoop at he
    split at he
    · split at he
      · injection he with h1
        exact Or.inr (Or.inl h1.symm)
      · split at he
        · injection he with h1
          exact Or.inr (Or.inr ⟨u.fu.round, h1.symm⟩)
        · exact ih _ _ he
    · injection he with h1
      exact Or.inl h1.symm

theorem verify_commitment_error_classes (a : Alert) (e : AlertError)
    (he : verify_commitment a = .error e) :
    e = .IncorrectlySignedUnit a.sender ∨ e = .WrongCreator a.sender ∨
      ∃ r, e = .SameRound r a.sender :=
  verifyCommitmentLoop_error_classes a.forker a.sender a.legit_units [] e he

/-- Claim C3: whenever `on_network_alert` returns an ok pair, the notification
is `Some(Forker(proof))` exactly when the accused forker (the creator named by
the alert's fork proof) was not yet in `known_forkers`; when the forker was
already known, the notification is `None`. -/
theorem Handler.on_network_alert_forker_iff (h : Handler) (ua : UncheckedAlert)
    (h2 : Handler) (notif : Option ForkingNotification) (hash : Nat)
    (heq : h.on_network_alert ua = (h2, .ok (notif, hash))) :
    (notif = some (ForkingNotification.Forker ua.alert.proof) ↔
      assocLookup h.known_forkers ua.alert.proof.1.fu.creator = none) ∧
    ((assocLookup h.known_forkers ua.alert.proof.1.fu.creator).isSome →
      notif = none) := by
  unfold Handler.on_network_alert at heq
  split at heq
  · split at heq
    · simp at heq
    · next forker hv =>
      have hf : forker = ua.alert.proof.1.fu.creator :=
        Handler.verify_fork_ok_creator hv
      subst hf
      split at heq
      · simp at heq
      · split at heq
        · next hknown =>
          injection heq with e1 e2
          injection e2 with e3
          injection e3 with e4 e5
          subst e4
          constructor
          · constructor
            · intro hc
              simp at hc
            · intro hnone
              unfold Handler.is_forker at hknown
              rw [hnone] at hknown
              simp at hknown
          · intro _
            rfl
        · next hknown =>
          injection heq with e1 e2
          injection e2 with e3
          injection e3 with e4 e5
          subst e4
          have hnone : assocLookup h.known_forkers ua.alert.proof.1.fu.creator = none := by
            cases hl : assocLookup h.known_forkers ua.alert.proof.1.fu.creator with
            | none => rfl
            | some v =>
              unfold Handler.is_forker at hknown
              rw [hl] at hknown
              simp at hknown
          refine ⟨⟨fun _ => hnone, fun _ => rfl⟩, fun hsome => ?_⟩
          rw [hnone] at hsome
          simp at hsome
  · simp at heq

/-- The common control hash of the witness units. -/
def chEmpty : ControlHash := ⟨⟨[]⟩⟩

/-- Two distinct units by node 6 at round 0 of session 0. -/
def fuA : FullUnit := ⟨6, 0, 0, chEmpty, 0, 100⟩

def fuB : FullUnit := ⟨6, 0, 0, chEmpty, 1, 101⟩

/-- A valid fork proof by node 6. -/
def proofW : ForkProof := (⟨fuA, true⟩, ⟨fuB, true⟩)

/-- Node 5's alert about forker 6, with an empty commitment. -/
def alertW : Alert := ⟨5, proofW, [], 77⟩

def uaW : UncheckedAlert := ⟨alertW, true⟩

/-- A fresh handler of session 0. -/
def handler0 : Handler := ⟨0, [], [], [], false⟩

/-- The handler after `handler0` processes `uaW`. -/
def handler3 : Handler := ⟨0, [(6, proofW)], [(77, alertW)], [((5, 6), 77)], false⟩

theorem Handler.on_network_alert_forker_iff_witness :
    (some (ForkingNotification.Forker proofW) = some (ForkingNotification.Forker proofW) ↔
      assocLookup handler0.known_forkers 6 = none) ∧
    ((assocLookup handler0.known_forkers 6).isSome →
      some (ForkingNotification.Forker proofW) = none) :=
  Handler.on_network_alert_forker_iff handler0 uaW handler3
    (some (.Forker proofW)) 77 rfl

/-- Claim C4: `alert_confirmed` fails with `UnknownAlertRMC` exactly when the
multisigned hash is absent from `known_alerts`, and whenever it returns
`Units(v)`, `v` is the stored alert's `legit_units` and that commitment
passes `verify_commitment`. -/
theorem Handler.alert_confirmed_spec (h : Handler) (ms : Nat) :
    ((h.alert_confirmed ms).2 = .error .UnknownAlertRMC ↔
      assocLookup h.known_alerts ms = none) ∧
    (∀ h2 v, h.alert_confirmed ms = (h2, .ok (.Units v)) →
      ∃ a, assocLookup h.known_alerts ms = some a ∧ v = a.legit_units ∧
        verify_commitment a = .ok ()) := by
  cases ha : assocLookup h.known_alerts ms with
  | none =>
    constructor
    · constructor
      · intro _
        rfl
      · intro _
        unfold Handler.alert_confirmed
        rw [ha]
    · intro h2 v heq
      unfold Handler.alert_confirmed at heq
      rw [ha] at heq
      simp at heq
  | some a =>
    cases hv : verify_commitment a with
    | error e =>
      have hred : h.alert_confirmed ms =
          ({ h with known_rmcs :=
              ((a.sender, a.proof.1.fu.creator), a.ahash) :: h.known_rmcs },
            .error e) := by
        simp only [Handler.alert_confirmed, ha, hv]
      have hclass := verify_commitment_error_classes a e hv
      constructor
      · constructor
        · intro herr
          rw [hred] at herr
          simp at herr
          rcases hclass with h2 | h2 | ⟨r, h2⟩ <;> rw [h2] at herr <;> simp at herr
        · intro hnone
          simp at hnone
      · intro h2 v heq
        rw [hred] at heq
        simp at heq
    | ok u =>
      cases u
      have hred : h.alert_confirmed ms =
          ({ h with known_rmcs :=
              ((a.sender, a.proof.1.fu.creator), a.ahash) :: h.known_rmcs },
            .ok (.Units a.legit_units)) := by
        simp only [Handler.alert_confirmed, ha, hv]
      constructor
      · constructor
        · intro herr
          rw [hred] at herr
          simp at herr
        · intro hnone
          simp at hnone
      · intro h2 v heq
        rw [hred] at heq
        injection heq with e1 e2
        injection e2 with e3
        injection e3 with e4
        exact ⟨a, rfl, e4.symm, hv⟩

/-- The handler that knows `alertW` under hash 77. -/
def handler4 : Handler := ⟨0, [], [(77, alertW)], [], false⟩

/-- `handler4` after confirming alert 77. -/
def handler4c : Handler := ⟨0, [], [(77, alertW)], [((5, 6), 77)], false⟩

theorem Handler.alert_confirmed_spec_witness :
    ∃ a, assocLookup handler4.known_alerts 77 = some a ∧
      ([] : List UncheckedSignedUnit) = a.legit_units ∧
      verify_commitment a = .ok () :=
  (Handler.alert_confirmed_spec handler4 77).2 handler4c [] rfl

/-- Claim C5: when the multisigned hash is present in `known_alerts` but the
alert's commitment fails verification, `alert_confirmed` still re-pins
`known_rmcs[(sender, forker)]` at the alert's hash, returns the commitment
error (one of `IncorrectlySignedUnit`, `WrongCreator`, `SameRound`), and
emits no `Units` notification. -/
theorem Handler.alert_confirmed_commitment_error (h : Handler) (ms : Nat)
    (a : Alert) (e : AlertError)
    (ha : assocLookup h.known_alerts ms = some a)
    (he : verify_commitment a = .error e) :
    (h.alert_confirmed ms).2 = .error e ∧
    assocLookup (h.alert_confirmed ms).1.known_rmcs
      (a.sender, a.proof.1.fu.creator) = some a.ahash ∧
    (e = .IncorrectlySignedUnit a.sender ∨ e = .WrongCreator a.sender ∨
      ∃ r, e = .SameRound r a.sender) := by
  have hred : h.alert_confirmed ms =
      ({ h with known_rmcs :=
          ((a.sender, a.proof.1.fu.creator), a.ahash) :: h.known_rmcs },
        .error e) := by
    simp only [Handler.alert_confirmed, ha, he]
  rw [hred]
  exact ⟨rfl, by simp [assocLookup], verify_commitment_error_classes a e he⟩

/-- Node 5's alert about forker 6 whose commitment carries an incorrectly
signed unit. -/
def alertBad : Alert := ⟨5, proofW, [⟨fuA, false⟩], 78⟩

/-- The handler that knows `alertBad` under hash 78. -/
def handler5 : Handler := ⟨0, [], [(78, alertBad)], [], false⟩

theorem Handler.alert_confirmed_commitment_error_witness :
    (handler5.alert_confirmed 78).2 = .error (.IncorrectlySignedUnit 5) ∧
    assocLookup (handler5.alert_confirmed 78).1.known_rmcs (5, 6) = some 78 ∧
    (AlertError.IncorrectlySignedUnit 5 = .IncorrectlySignedUnit 5 ∨
      AlertError.IncorrectlySignedUnit 5 = .WrongCreator 5 ∨
      ∃ r, AlertError.IncorrectlySignedUnit 5 = .SameRound r 5) :=
  Handler.alert_confirmed_commitment_error handler5 78 alertBad
    (.IncorrectlySignedUnit 5) rfl rfl

/-- Claim C6: a correctly signed alert with a valid fork proof whose
(sender, forker) pair is already in `known_rmcs` yields the `RepeatedAlert`
error naming that accuser and forker, while the alert is still stored in
`known_alerts` under its hash, no notification is emitted and `known_rmcs`
is left unchanged. -/
theorem Handler.on_network_alert_repeated (h : Handler) (ua : UncheckedAlert)
    (forker : Nat) (hsig : ua.sigOk = true)
    (hfork : h.verify_fork ua.alert = .ok forker)
    (hrmc : (assocLookup h.known_rmcs (ua.alert.sender, forker)).isSome) :
    (h.on_network_alert ua).2 = .error (.RepeatedAlert ua.alert.sender forker) ∧
    assocLookup (h.on_network_alert ua).1.known_alerts ua.alert.ahash =
      some ua.alert ∧
    (h.on_network_alert ua).1.known_rmcs = h.known_rmcs := by
  have hred : h.on_network_alert ua =
      ({ h with known_alerts := (ua.alert.ahash, ua.alert) :: h.known_alerts },
        .error (.RepeatedAlert ua.alert.sender forker)) := by
    unfold Handler.on_network_alert
    rw [hsig, hfork]
    simp only [if_true, hrmc, ite_true]
  rw [hred]
  exact ⟨rfl, by simp [assocLookup], rfl⟩

/-- The handler that already propagates an RMC for accuser 5 about forker 6. -/
def handler6 : Handler := ⟨0, [], [], [((5, 6), 77)], false⟩

theorem Handler.on_network_alert_repeated_witness :
    (handler6.on_network_alert uaW).2 = .error (.RepeatedAlert 5 6) ∧
    assocLookup (handler6.on_network_alert uaW).1.known_alerts 77 = some alertW ∧
    (handler6.on_network_alert uaW).1.known_rmcs = handler6.known_rmcs :=
  Handler.on_network_alert_repeated handler6 uaW 6 rfl rfl rfl

/-- Claim C7: for an `RmcMessage(sender, msg)`, when the hash is known and
either the current RMC for the stored alert's (sender, forker) pair points at
this hash or the message carries a complete multisignature, the handler
forwards the RMC message; when the hash is known but neither condition holds
it returns `Ok(None)`; when the hash is unknown it requests the alert from
the message's sender. -/
theorem Handler.on_message_rmc_cases (h : Handler) (sender : Nat)
    (msg : RmcHashMessage) :
    (∀ alert, assocLookup h.known_alerts msg.hash = some alert →
      ((assocLookup h.known_rmcs (alert.sender, alert.forker) = some msg.hash ∨
          msg.complete = true) →
        h.on_message (.RmcMessage sender msg) =
          (h, .ok (some (.RmcMessage msg)))) ∧
      (¬(assocLookup h.known_rmcs (alert.sender, alert.forker) = some msg.hash ∨
          msg.complete = true) →
        h.on_message (.RmcMessage sender msg) = (h, .ok none))) ∧
    (assocLookup h.known_alerts msg.hash = none →
      h.on_message (.RmcMessage sender msg) =
        (h, .ok (some (.AlertRequest msg.hash (.Node sender))))) := by
  constructor
  · intro alert ha
    constructor
    · intro hcond
      simp only [Handler.on_message, ha]
      rw [if_pos hcond]
    · intro hcond
      simp only [Handler.on_message, ha]
      rw [if_neg hcond]
  · intro ha
    simp only [Handler.on_message, ha]

/-- An RMC payload for hash 55 without a complete multisignature. -/
def msgW : RmcHashMessage := ⟨55, false⟩

theorem Handler.on_message_rmc_cases_witness :
    handler0.on_message (.RmcMessage 3 msgW) =
      (handler0, .ok (some (.AlertRequest 55 (.Node 3)))) :=
  (Handler.on_message_rmc_cases handler0 3 msgW).2 rfl

/-- One handler operation, as driven by the alerter service. -/
inductive AlertOp
  | own (a : Alert)
  | network (ua : UncheckedAlert)
  | msg (m : AlertMessage)
  | confirmed (ms : Nat)
deriving DecidableEq, Repr

/-- The handler-state effect of one operation. -/
def alertStep (h : Handler) (op : AlertOp) : Handler :=
  match op with
  | .own a => (h.on_own_alert a).1
  | .network ua => (h.on_network_alert ua).1
  | .msg m => (h.on_message m).1
  | .confirmed ms => (h.alert_confirmed ms).1

theorem Handler.on_network_alert_rmcs_extend (h : Handler) (ua : UncheckedAlert) :
    ∃ l, ((h.on_network_alert ua).1).known_rmcs = l ++ h.known_rmcs := by
  unfold Handler.on_network_alert
  by_cases hsig : ua.sigOk = true
  · rw [if_pos hsig]
    cases hv : h.verify_fork ua.alert with
    | error e => exact ⟨[], rfl⟩
    | ok forker =>
      simp only []
      by_cases hrmc : (assocLookup h.known_rmcs (ua.alert.sender, forker)).isSome
      · rw [if_pos hrmc]
        exact ⟨[], rfl⟩
      · rw [if_neg hrmc]
        by_cases hknown : h.is_forker forker = true
        · rw [if_pos hknown]
          exact ⟨[((ua.alert.sender, forker), ua.alert.ahash)], rfl⟩
        · rw [if_neg hknown]
          exact ⟨[((ua.alert.sender, forker), ua.alert.ahash)], rfl⟩
  · rw [if_neg hsig]
    exact ⟨[], rfl⟩

theorem Handler.on_own_alert_rmcs_extend (h : Handler) (a : Alert) :
    ∃ l, ((h.on_own_alert a).1).known_rmcs = l ++ h.known_rmcs :=
  ⟨[((a.sender, a.forker), a.ahash)], rfl⟩

theorem Handler.on_message_rmcs_extend (h : Handler) (m : AlertMessage) :
    ∃ l, ((h.on_message m).1).known_rmcs = l ++ h.known_rmcs := by
  cases m with
  | ForkAlert ua => exact h.on_network_alert_rmcs_extend ua
  | RmcMessage sender msg =>
    cases ha : assocLookup h.known_alerts msg.hash with
    | some alert =>
      by_cases hc : (assocLookup h.known_rmcs (alert.sender, alert.forker) =
          some msg.hash ∨ msg.complete = true)
      · have hred : h.on_message (.RmcMessage sender msg) =
            (h, .ok (some (.RmcMessage msg))) := by
          simp only [Handler.on_message, ha]
          rw [if_pos hc]
        rw [hred]
        exact ⟨[], rfl⟩
      · have hred : h.on_message (.RmcMessage sender msg) = (h, .ok none) := by
          simp only [Handler.on_message, ha]
          rw [if_neg hc]
        rw [hred]
        exact ⟨[], rfl⟩
    | none =>
      have hred : h.on_message (.RmcMessage sender msg) =
          (h, .ok (some (.AlertRequest msg.hash (.Node sender)))) := by
        simp only [Handler.on_message, ha]
      rw [hred]
      exact ⟨[], rfl⟩
  | AlertRequest node hash =>
    cases ha : assocLookup h.known_alerts hash with
    | some alert =>
      have hred : h.on_message (.AlertRequest node hash) =
          (h, .ok (some (.ForkAlert ⟨alert, true⟩ (.Node node)))) := by
        simp only [Handler.on_message, ha]
      rw [hred]
      exact ⟨[], rfl⟩
    | none =>
      have hred : h.on_message (.AlertRequest node hash) =
          (h, .error .UnknownAlertRequest) := by
        simp only [Handler.on_message, ha]
      rw [hred]
      exact ⟨[], rfl⟩

theorem Handler.alert_confirmed_rmcs_extend (h : Handler) (ms : Nat) :
    ∃ l, ((h.alert_confirmed ms).1).known_rmcs = l ++ h.known_rmcs := by
  cases ha : assocLookup h.known_alerts ms with
  | none =>
    have hred : h.alert_confirmed ms = (h, .error .UnknownAlertRMC) := by
      simp only [Handler.alert_confirmed, ha]
    rw [hred]
    exact ⟨[], rfl⟩
  | some a =>
    cases hv : verify_commitment a with
    | error e =>
      have hred : h.alert_confirmed ms =
          ({ h with known_rmcs :=
              ((a.sender, a.proof.1.fu.creator), a.ahash) :: h.known_rmcs },
            .error e) := by
        simp only [Handler.alert_confirmed, ha, hv]
      rw [hred]
      exact ⟨[((a.sender, a.proof.1.fu.creator), a.ahash)], rfl⟩
    | ok u =>
      cases u
      have hred : h.alert_confirmed ms =
          ({ h with known_rmcs :=
              ((a.sender, a.proof.1.fu.creator), a.ahash) :: h.known_rmcs },
            .ok (.Units a.legit_units)) := by
        simp only [Handler.alert_confirmed, ha, hv]
      rw [hred]
      exact ⟨[((a.sender, a.proof.1.fu.creator), a.ahash)], rfl⟩

theorem alertStep_rmcs_extend (h : Handler) (op : AlertOp) :
    ∃ l, (alertStep h op).known_rmcs = l ++ h.known_rmcs := by
  cases op with
  | own a => exact h.on_own_alert_rmcs_extend a
  | network ua => exact h.on_network_alert_rmcs_extend ua
  | msg m => exact h.on_message_rmcs_extend m
  | confirmed ms => exact h.alert_confirmed_rmcs_extend ms

/-- Claim C8: once `known_rmcs[(sender, forker)]` is set, it remains set after
any sequence of handler operations (`on_own_alert`, `on_network_alert`,
`on_message`, `alert_confirmed`); entries may be shadowed by a new hash but
are never removed. -/
theorem Handler.known_rmcs_persistent (h : Handler) (p : Nat × Nat)
    (hset : (assocLookup h.known_rmcs p).isSome) (ops : List AlertOp) :
    (assocLookup ((ops.foldl alertStep h).known_rmcs) p).isSome := by
  induction ops generalizing h with
  | nil => exact hset
  | cons op ops ih =>
    rw [List.foldl_cons]
    apply ih
    obtain ⟨l, hl⟩ := alertStep_rmcs_extend h op
    rw [hl]
    exact assocLookup_append_isSome l h.known_rmcs p hset

/-- A handler with an RMC entry for accuser 1 about forker 2. -/
def handler8 : Handler := ⟨0, [], [], [((1, 2), 9)], false⟩

theorem Handler.known_rmcs_persistent_witness :
    (assocLookup (([AlertOp.confirmed 9,
        AlertOp.network uaW].foldl alertStep handler8)).known_rmcs (1, 2)).isSome :=
  Handler.known_rmcs_persistent handler8 (1, 2) rfl
    [AlertOp.confirmed 9, AlertOp.network uaW]

/-- Modelled from the spec: the `Validator` admits a unit when its signature
checks against the creator's key, its session matches, its round does not
exceed `max_round` and its creator index is below `N`; it never mutates
state. -/
structure Validator where
  session_id : Nat
  max_round : Nat
  n_members : Nat
deriving DecidableEq, Repr

/-- `Validator::validate_unit`, returning the checked unit on success. -/
def Validator.validate_unit (v : Validator) (u : UncheckedSignedUnit) :
    Option FullUnit :=
  if u.sigOk ∧ u.fu.session = v.session_id ∧ u.fu.round ≤ v.max_round ∧
      u.fu.creator < v.n_members then
    some u.fu
  else none

/-- Modelled from the spec: the slice of the `UnitStore` the runway paths
under study read and write — units indexed by hash, and the per-hash parent
lists, which may be added exactly once (subsequent adds are no-ops). -/
structure UnitStore where
  units : List (Nat × FullUnit)
  parents : List (Nat × List Nat)
deriving DecidableEq, Repr

def UnitStore.unit_by_hash (s : UnitStore) (h : Nat) : Option FullUnit :=
  assocLookup s.units h

def UnitStore.get_parents (s : UnitStore) (h : Nat) : Option (List Nat) :=
  assocLookup s.parents h

/-- `UnitStore::add_parents`: parents are recorded at most once per hash. -/
def UnitStore.add_parents (s : UnitStore) (h : Nat) (ps : List Nat) : UnitStore :=
  if (assocLookup s.parents h).isSome then s
  else { s with parents := (h, ps) :: s.parents }

/-- `UnitStore::add_unit` restricted to the insertion the studied paths
observe: the unit becomes available under its hash. -/
def UnitStore.add_unit (s : UnitStore) (fu : FullUnit) : UnitStore :=
  { s with units := (fu.uhash, fu) :: s.units }

/-- A notification from the runway to the consensus component
(`NotificationIn` in `runway/mod.rs`). -/
inductive ConsensusNotification
  | NewUnits (us : List FullUnit)
  | UnitParents (h : Nat) (ps : List Nat)
deriving DecidableEq, Repr

/-- The per-parent loop of `Runway::on_parents_response`: validate each
received unit, require its round to be one below the requested unit's round
and its creator to be the declared parent at its position, and accumulate its
hash in the parent `NodeMap` under its creator.  The source also inserts each
validated parent into the unit store and resolves outstanding coord requests
inside this loop; those effects touch only state that is neither read again
by this handler nor part of the parents decision, so they are not modelled
here. -/
def assembleParents (v : Validator) (uRound : Nat) :
    List Nat → List UncheckedSignedUnit → NodeMap Nat → Option (NodeMap Nat)
  | [], [], acc => some acc
  | pid :: pids, uu :: uus, acc =>
    match v.validate_unit uu with
    | none => none
    | some fu =>
      if fu.round + 1 = uRound then
        if fu.creator = pid then
          assembleParents v uRound pids uus (acc.insert fu.creator fu.uhash)
        else none
      else none
  | _, _, _ => none

/-- `Runway::on_parents_response`: drop when the parents are already known,
when the unit itself is unknown, when the received parent count mismatches
the declared parent slots, when any received parent fails its checks, or when
the combined control hash of the assembled map differs from the unit's; only
then record the parents and notify consensus with `UnitParents`. -/
def on_parents_response (v : Validator) (n_members : Nat) (store : UnitStore)
    (uHash : Nat) (parents : List UncheckedSignedUnit) :
    UnitStore × Option ConsensusNotification :=
  if (store.get_parents uHash).isSome then (store, none)
  else
    match store.unit_by_hash uHash with
    | none => (store, none)
    | some u =>
      if u.control_hash.parentsIdx.length ≠ parents.length then (store, none)
      else
        match assembleParents v u.round u.control_hash.parentsIdx parents
            (NodeMap.withSize Nat n_members) with
        | none => (store, none)
        | some m =>
          if ControlHash.combine_hashes m = u.control_hash.combined then
            (store.add_parents uHash m.values,
              some (.UnitParents uHash m.values))
          else (store, none)

theorem assembleParents_sound (v : Validator) (uRound : Nat) :
    ∀ (pids : List Nat) (uus : List UncheckedSignedUnit) (acc m : NodeMap Nat),
      assembleParents v uRound pids uus acc = some m →
      pids.length = uus.length ∧
      ∀ pu ∈ pids.zip uus, ∃ fu, v.validate_unit pu.2 = some fu ∧
        fu.round + 1 = uRound ∧ fu.creator = pu.1 := by
  intro pids
  induction pids with
  | nil =>
    intro uus acc m hm
    cases uus with
    | nil => simp
    | cons uu uus => exact absurd hm (by simp [assembleParents])
  | cons pid pids ih =>
    intro uus acc m hm
    cases uus with
    | nil => exact absurd hm (by simp [assembleParents])
    | cons uu uus =>
      unfold assembleParents at hm
      split at hm
      · exact absurd hm (by simp)
      · next fu hval =>
        split at hm
        · next hround =>
          split at hm
          · next hcreator =>
            obtain ⟨hlen, hall⟩ := ih uus _ m hm
            refine ⟨by simp [hlen], ?_⟩
            intro pu hpu
            rw [List.zip_cons_cons, List.mem_cons] at hpu
            rcases hpu with hpu | hpu
            · subst hpu
              exact ⟨fu, hval, hround, hcreator⟩
            · exact hall pu hpu
          · exact absurd hm (by simp)
        · exact absurd hm (by simp)

/-- Claim C2: the runway's parents-response handler records parents via
`add_parents` and notifies consensus with `UnitParents` only when the parents
of the unit were not already known, the unit is in the store, the received
parent count equals the declared parent-slot count of its control hash, every
received parent passes validation with round one below the unit's round and
the declared creator for its position, and the combined control hash of the
assembled parent map equals the unit's control hash; when any check fails
neither the store nor consensus observes anything. -/
theorem on_parents_response_only_when_valid (v : Validator) (n_members : Nat)
    (store : UnitStore) (uHash : Nat) (parents : List UncheckedSignedUnit) :
    (∀ store2 note, on_parents_response v n_members store uHash parents =
        (store2, some note) →
      store.get_parents uHash = none ∧
      ∃ u, store.unit_by_hash uHash = some u ∧
        parents.length = u.control_hash.parentsIdx.length ∧
        (∀ pu ∈ u.control_hash.parentsIdx.zip parents,
          ∃ fu, v.validate_unit pu.2 = some fu ∧ fu.round + 1 = u.round ∧
            fu.creator = pu.1) ∧
        ∃ m, assembleParents v u.round u.control_hash.parentsIdx parents
            (NodeMap.withSize Nat n_members) = some m ∧
          ControlHash.combine_hashes m = u.control_hash.combined ∧
          note = ConsensusNotification.UnitParents uHash m.values ∧
          store2 = store.add_parents uHash m.values) ∧
    (∀ store2, on_parents_response v n_members store uHash parents =
        (store2, none) →
      store2 = store) := by
  constructor
  · intro store2 note heq
    unfold on_parents_response at heq
    split at heq
    · simp at heq
    · next hknown =>
      have hknown2 : store.get_parents uHash = none := by
        cases hk : store.get_parents uHash with
        | none => rfl
        | some ps => rw [hk] at hknown; simp at hknown
      split at heq
      · simp at heq
      · next u hu =>
        split at heq
        · simp at heq
        · next hlen =>
          split at heq
          · simp at heq
          · next m hm =>
            split at heq
            · next hch =>
              injection heq with e1 e2
              injection e2 with e3
              obtain ⟨hlens, hall⟩ :=
                assembleParents_sound v u.round u.control_hash.parentsIdx
                  parents _ m hm
              refine ⟨hknown2, u, hu, ?_, hall, m, hm, hch, e3.symm, e1.symm⟩
              omega
            · simp at heq
  · intro store2 heq
    unfold on_parents_response at heq
    split at heq
    · injection heq with e1 e2
      exact e1.symm
    · split at heq
      · injection heq with e1 e2
        exact e1.symm
      · split at heq
        · injection heq with e1 e2
          exact e1.symm
        · split at heq
          · injection heq with e1 e2
            exact e1.symm
          · split at heq
            · simp at heq
            · injection heq with e1 e2
              exact e1.symm

/-- The validator of session 0 for one member with max round 10. -/
def validatorW : Validator := ⟨0, 10, 1⟩

/-- The round-0 parent unit with hash 42, by creator 0. -/
def parentFu : FullUnit := ⟨0, 0, 0, chEmpty, 0, 42⟩

def parentUsu : UncheckedSignedUnit := ⟨parentFu, true⟩

/-- The round-1 unit with hash 5 whose control hash declares exactly the
parent 42 in slot 0. -/
def unitW : FullUnit := ⟨0, 1, 0, ⟨⟨[some 42]⟩⟩, 0, 5⟩

/-- The store knowing `unitW` and no parents. -/
def storeW : UnitStore := ⟨[(5, unitW)], []⟩

/-- `storeW` after recording the parents of unit 5. -/
def storeW2 : UnitStore := ⟨[(5, unitW)], [(5, [42])]⟩

theorem on_parents_response_only_when_valid_witness :
    storeW.get_parents 5 = none ∧
    ∃ u, storeW.unit_by_hash 5 = some u ∧
      [parentUsu].length = u.control_hash.parentsIdx.length ∧
      (∀ pu ∈ u.control_hash.parentsIdx.zip [parentUsu],
        ∃ fu, validatorW.validate_unit pu.2 = some fu ∧ fu.round + 1 = u.round ∧
          fu.creator = pu.1) ∧
      ∃ m, assembleParents validatorW u.round u.control_hash.parentsIdx
          [parentUsu] (NodeMap.withSize Nat 1) = some m ∧
        ControlHash.combine_hashes m = u.control_hash.combined ∧
        ConsensusNotification.UnitParents 5 [42] =
          ConsensusNotification.UnitParents 5 m.values ∧
        storeW2 = storeW.add_parents 5 m.values :=
  (on_parents_response_only_when_valid validatorW 1 storeW 5 [parentUsu]).1
    storeW2 (ConsensusNotification.UnitParents 5 [42]) rfl

/-- An event on the backup/persistence boundary of the runway. -/
inductive BackupEvent
  | save (u : FullUnit) (ok : Bool)
  | storeAdd (u : FullUnit)
deriving DecidableEq, Repr

/-- `Runway::save_unit`: hand the unit to the unit saver; a failure is only
logged, so the caller observes no difference.  `ok` is the outcome of the
backup write. -/
def save_unit (ok : Bool) (u : FullUnit) : List BackupEvent :=
  [BackupEvent.save u ok]

/-- `Runway::on_create`: build the FullUnit from the created PreUnit, the
data payload drawn from the data provider and the session id, sign it,
persist it via the unit saver, then insert it into the store.  `uhash`
stands for the digest the hasher assigns to the new unit; the returned event
list records the order of the two externally visible effects. -/
def on_create (store : UnitStore) (saveOk : Bool) (pu : PreUnit)
    (data session uhash : Nat) : UnitStore × List BackupEvent :=
  (UnitStore.add_unit store ⟨pu.creator, pu.round, session, pu.control_hash, data, uhash⟩,
    save_unit saveOk ⟨pu.creator, pu.round, session, pu.control_hash, data, uhash⟩ ++
      [BackupEvent.storeAdd ⟨pu.creator, pu.round, session, pu.control_hash, data, uhash⟩])

/-- Claim C9: on a `CreatedPreUnit` notification the runway passes the signed
FullUnit to the unit saver strictly before inserting it into the store, and a
save failure does not prevent the insertion: for every save outcome the event
trace is exactly the save followed by the store insertion, and the unit is
in the store afterwards. -/
theorem on_create_save_before_store (store : UnitStore) (saveOk : Bool)
    (pu : PreUnit) (data session uhash : Nat) :
    ∃ fu, (on_create store saveOk pu data session uhash).2 =
        [BackupEvent.save fu saveOk, BackupEvent.storeAdd fu] ∧
      (on_create store saveOk pu data session uhash).1.unit_by_hash fu.uhash =
        some fu := by
  refine ⟨⟨pu.creator, pu.round, session, pu.control_hash, data, uhash⟩, rfl, ?_⟩
  simp [on_create, UnitStore.add_unit, UnitStore.unit_by_hash, assocLookup]

end AlephBFT
